import Mathlib

/-!
Verification of the rk-billing-backend server (src/server.py).

Python strings are embedded as Lean `String` (a structure over `List Char`);
the Python string operations used by the server (`strip`, `startswith`,
`split`, `rstrip`, `join`) are defined below on character lists, following
Python's documented semantics (`split` on a non-empty separator cuts at each
leftmost non-overlapping occurrence; `strip`/`rstrip` remove characters from
the ends).  Database rows are embedded as Lean structures and the store as
explicit lists; endpoint handlers are pure functions from the store and the
request to the new store and the response.
-/

abbrev Chars := List Char

/-- Python `str.split(sep)` scanner over character lists, for a non-empty
separator.  The `skip` counter walks over the remaining characters of a
separator occurrence that has just been consumed. -/
def splitGo (sep : Chars) : Chars → Nat → Chars → List Chars
  | [], _, acc => [acc.reverse]
  | _ :: cs, k + 1, acc => splitGo sep cs k acc
  | c :: cs, 0, acc =>
    if sep.isPrefixOf (c :: cs) then
      acc.reverse :: splitGo sep cs (sep.length - 1) []
    else
      splitGo sep cs 0 (c :: acc)

/-- Python `str.split(sep)` on character lists. -/
def splitOnCL (sep xs : Chars) : List Chars := splitGo sep xs 0 []

/-- Python `s.split(sep)` for strings. -/
def pySplit (s sep : String) : List String :=
  (splitOnCL sep.data s.data).map String.mk

/-- Python `s.startswith(pre)`. -/
def pyStartswith (s pre : String) : Bool := pre.data.isPrefixOf s.data

/-- Python whitespace test used by `str.strip` (ASCII whitespace suffices for
the characters this system handles). -/
def pyWs (c : Char) : Bool := c.isWhitespace

/-- Python `str.strip()` on character lists: drop whitespace from both ends. -/
def stripL (xs : Chars) : Chars :=
  ((xs.dropWhile pyWs).reverse.dropWhile pyWs).reverse

/-- Python `s.strip()`. -/
def pyStrip (s : String) : String := ⟨stripL s.data⟩

/-- Python `s.rstrip(c)` for a one-character strip set: remove every trailing
occurrence of `c`. -/
def pyRstrip (s : String) (c : Char) : String :=
  ⟨(s.data.reverse.dropWhile (· == c)).reverse⟩

/-- Python `sep.join(parts)`. -/
def joinSep (sep : String) : List String → String
  | [] => ""
  | [p] => p
  | p :: q :: ps => p ++ sep ++ joinSep sep (q :: ps)

/-- List-level counterpart of `joinSep`, used in proofs. -/
def joinL (sep : Chars) : List Chars → Chars
  | [] => []
  | [p] => p
  | p :: q :: ps => p ++ sep ++ joinL sep (q :: ps)

/-- `occursIn pat xs` holds when `pat` occurs as a contiguous substring of
`xs` (at any position). -/
def occursIn (pat : Chars) : Chars → Bool
  | [] => pat.isPrefixOf ([] : Chars)
  | c :: cs => pat.isPrefixOf (c :: cs) || occursIn pat cs

/-- The line item record decoded during invoice rendering
(`generate_invoice`, src/server.py lines 203–227).  All seven fields stay
strings end to end. -/
structure LineItem where
  name : String
  grossWeight : String
  wastagePercent : String
  netWeight : String
  goldRate : String
  labRate : String
  amount : String
deriving DecidableEq, Repr

/-- Python `part.split(pre)[1]` as used by the decoder; the index is total
here because every call site first checks `part.startswith(pre)`. -/
def splitAfter (part pre : String) : String := (pySplit part pre).getD 1 ""

/-- One pass of the decoder's segment loop (src/server.py lines 211–225):
match the segment against the known key prefixes, strip the prefix and the
trailing unit, and store the value; unmatched segments leave the record
unchanged. -/
def decodeStep (st : LineItem) (part : String) : LineItem :=
  if pyStartswith part "Item: " then
    { st with name := splitAfter part "Item: " }
  else if pyStartswith part "Gross: " then
    { st with grossWeight := pyRstrip (splitAfter part "Gross: ") 'g' }
  else if pyStartswith part "Wastage: " then
    { st with wastagePercent := pyRstrip (splitAfter part "Wastage: ") '%' }
  else if pyStartswith part "Net: " then
    { st with netWeight := pyRstrip (splitAfter part "Net: ") 'g' }
  else if pyStartswith part "Gold Rate: Rs." then
    { st with goldRate := splitAfter part "Gold Rate: Rs." }
  else if pyStartswith part "Lab Rate: Rs." then
    { st with labRate := splitAfter part "Lab Rate: Rs." }
  else if pyStartswith part "Amount: Rs." then
    { st with amount := splitAfter part "Amount: Rs." }
  else st

/-- The final `.strip()` applied to every field when the row is emitted
(src/server.py line 227). -/
def stripItem (st : LineItem) : LineItem :=
  ⟨pyStrip st.name, pyStrip st.grossWeight, pyStrip st.wastagePercent,
   pyStrip st.netWeight, pyStrip st.goldRate, pyStrip st.labRate,
   pyStrip st.amount⟩

/-- The record all fields start from: every field is the empty string
(src/server.py lines 203–209). -/
def emptyItem : LineItem := ⟨"", "", "", "", "", "", ""⟩

/-- The item decoder of `generate_invoice` (src/server.py lines 196–227):
trim, reject strings that are empty or lack the `Item: ` prefix, split the
rest on `" | "` and fold the segment loop. -/
def decodeItem (s : String) : Option LineItem :=
  if pyStrip s = "" ∨ pyStartswith (pyStrip s) "Item: " = false then none
  else some (stripItem ((pySplit (pyStrip s) " | ").foldl decodeStep emptyItem))

/-- Modelled from the spec: `encode(LineItem) -> string` of section 4.1 — the
fixed format `Item: <name> | Gross: <g>g | Wastage: <w>% | Net: <n>g |
Gold Rate: Rs.<r> | Lab Rate: Rs.<l> | Amount: Rs.<a>`, segments joined by
`" | "`.  The source only decodes; the encoder exists in the spec alone. -/
def encodeItem (x : LineItem) : String :=
  joinSep " | "
    ["Item: " ++ x.name,
     "Gross: " ++ x.grossWeight ++ "g",
     "Wastage: " ++ x.wastagePercent ++ "%",
     "Net: " ++ x.netWeight ++ "g",
     "Gold Rate: Rs." ++ x.goldRate,
     "Lab Rate: Rs." ++ x.labRate,
     "Amount: Rs." ++ x.amount]

/-- The key prefixes the segment loop recognises, paired with the field each
one fills (src/server.py lines 212–225). -/
def fieldSpecs : List (String × (LineItem → String)) :=
  [("Item: ", LineItem.name),
   ("Gross: ", LineItem.grossWeight),
   ("Wastage: ", LineItem.wastagePercent),
   ("Net: ", LineItem.netWeight),
   ("Gold Rate: Rs.", LineItem.goldRate),
   ("Lab Rate: Rs.", LineItem.labRate),
   ("Amount: Rs.", LineItem.amount)]

/-- The key prefixes alone. -/
def knownPrefixes : List String := fieldSpecs.map Prod.fst

/-! ## Invoice table builder (src/server.py lines 191–231) -/

/-- The fixed header row of the invoice item table (src/server.py
line 191). -/
def headerRow : List String :=
  ["Sr. No.", "Item Name", "Gross Wt. (g)", "Wastage (%)", "Net Wt. (g)",
   "Gold Rate (Rs./g)", "Lab Rate (Rs.)", "Amount (Rs.)"]

/-- One iteration of the item loop (src/server.py lines 195–231): trim the
raw string; strings that are empty or lack the `Item: ` prefix become a
fallback row holding the trimmed string and six dashes; the rest are decoded
by the inlined segment loop into a data row. -/
def buildRow (i : Nat) (raw : String) : List String :=
  if pyStrip raw = "" ∨ pyStartswith (pyStrip raw) "Item: " = false then
    ["#" ++ toString i, pyStrip raw, "-", "-", "-", "-", "-", "-"]
  else
    (fun r => ["#" ++ toString i, r.name, r.grossWeight, r.wastagePercent,
      r.netWeight, r.goldRate, r.labRate, r.amount])
      (stripItem ((pySplit (pyStrip raw) " | ").foldl decodeStep emptyItem))

/-- The item strings the table loop iterates over (src/server.py lines
193–194): nothing when the stored blob is empty (Python truthiness),
otherwise the blob split on `"\n"`. -/
def splitItems (blob : String) : List String :=
  if blob = "" then [] else pySplit blob "\n"

/-- The per-item rows of the invoice table, with 1-based display indices
(src/server.py lines 195–231). -/
def itemRows (blob : String) : List (List String) :=
  (splitItems blob).enum.map fun p => buildRow (p.1 + 1) p.2

/-- The full invoice item table: header plus one row per item
(src/server.py lines 191–231). -/
def buildTable (blob : String) : List (List String) := headerRow :: itemRows blob

/-- Modelled from the spec: the `split` operation as section 4.2 words it —
"trim the blob, split on `\n`, trim each resulting element, drop elements
that are empty after trimming".  Defined only to be compared with the
source's behaviour (`splitItems` / the row loop). -/
def specSplitItems (blob : String) : List String :=
  ((pySplit (pyStrip blob) "\n").map pyStrip).filter (· ≠ "")

/-- The join performed on write (src/server.py line 120):
`"\n".join(data['purchased_items'])`. -/
def joinItems (items : List String) : String := joinSep "\n" items

/-! ## Record store and endpoint handlers -/

/-- A `Customer` row (src/server.py lines 29–33). -/
structure Customer where
  id : Nat
  name : String
  contact : String
deriving DecidableEq, Repr

/-- A `Visit` row (src/server.py lines 35–41).  `date` is an abstract
timestamp; larger means later.  The currency columns never partake in
arithmetic here, so they are embedded as integers of hundredths. -/
structure Visit where
  id : Nat
  customer_id : Nat
  date : Nat
  purchased_items : String
  paid_amount : Int
  due_amount : Int
deriving DecidableEq, Repr

/-- The relational store: both tables in insertion order plus the
autoincrement counters. -/
structure Store where
  customers : List Customer
  visits : List Visit
  nextCustomerId : Nat
  nextVisitId : Nat
deriving DecidableEq, Repr

/-- An endpoint response: HTTP-like status, message, and the id field some
responses carry. -/
structure Resp where
  status : Nat
  message : String
  id : Option Nat
deriving DecidableEq, Repr

/-- The outcome of a mutating endpoint: the store after the call, the
external spreadsheet sheet after the call, whether a mirror-write error was
logged, and the response. -/
structure EpResult where
  store : Store
  sink : List (List String)
  mirrorErrorLogged : Bool
  resp : Resp
deriving DecidableEq, Repr

/-- `save_to_excel` (src/server.py lines 43–53): append the row to the sheet;
any failure is caught inside the function and only logged.  The external
sink's health is the `ok` flag; the caller never observes it. -/
def save_to_excel (ok : Bool) (sink : List (List String)) (row : List String) :
    List (List String) × Bool :=
  if ok then (sink ++ [row], false) else (sink, true)

/-- An `/add_customer` request body: both fields may be absent. -/
structure AddCustomerReq where
  name : Option String
  contact : Option String
deriving DecidableEq, Repr

/-- The `/add_customer` handler (src/server.py lines 73–95): reject missing
fields with 400; return the existing id when a row with the same
(name, contact) exists; otherwise insert, commit, then best-effort mirror
write, then respond.  `mirrorOk` abstracts whether the spreadsheet write
succeeds. -/
def add_customer (st : Store) (sink : List (List String)) (req : AddCustomerReq)
    (mirrorOk : Bool) : EpResult :=
  match req.name, req.contact with
  | some nm, some ct =>
    match st.customers.find? (fun c => c.name == nm && c.contact == ct) with
    | some c => ⟨st, sink, false, ⟨200, "Customer already exists!", some c.id⟩⟩
    | none =>
      let c : Customer := ⟨st.nextCustomerId, nm, ct⟩
      let st' : Store :=
        { st with customers := st.customers ++ [c],
                  nextCustomerId := st.nextCustomerId + 1 }
      let m := save_to_excel mirrorOk sink [toString c.id, nm, ct]
      ⟨st', m.1, m.2, ⟨200, "Customer added successfully!", some c.id⟩⟩
  | _, _ => ⟨st, sink, false,
      ⟨400, "Invalid data, name and contact required", none⟩⟩

/-- An `/add_visit` request body: `customer_id` and `purchased_items` are
required, the amounts optional with default 0. -/
structure AddVisitReq where
  customer_id : Option Nat
  purchased_items : Option (List String)
  paid_amount : Option Int
  due_amount : Option Int
deriving DecidableEq, Repr

/-- The `/add_visit` handler (src/server.py lines 111–137): reject missing
required fields with 400; otherwise join the items with newlines, insert the
visit (no check that the customer exists), commit, best-effort mirror write,
and respond.  `now` is the creation timestamp default. -/
def add_visit (st : Store) (sink : List (List String)) (req : AddVisitReq)
    (now : Nat) (mirrorOk : Bool) : EpResult :=
  match req.customer_id, req.purchased_items with
  | some cid, some items =>
    let blob := joinItems items
    let v : Visit := ⟨st.nextVisitId, cid, now, blob,
      req.paid_amount.getD 0, req.due_amount.getD 0⟩
    let st' : Store :=
      { st with visits := st.visits ++ [v], nextVisitId := st.nextVisitId + 1 }
    let m := save_to_excel mirrorOk sink [toString cid, blob]
    ⟨st', m.1, m.2, ⟨200, "Visit recorded successfully!", none⟩⟩
  | _, _ => ⟨st, sink, false,
      ⟨400, "Invalid data, customer_id and purchased_items required", none⟩⟩

/-- One comparison step of the date ordering: keep the later visit, the
earlier-seen one on ties. -/
def laterVisit (acc : Option Visit) (v : Visit) : Option Visit :=
  match acc with
  | none => some v
  | some w => if v.date > w.date then some v else some w

/-- `Visit.query.filter_by(customer_id=...).order_by(Visit.date.desc()).first()`
(src/server.py line 170): the first row, in table order, among those of the
customer with the maximal date. -/
def latestVisit (vs : List Visit) (cid : Nat) : Option Visit :=
  (vs.filter (fun v => v.customer_id == cid)).foldl laterVisit none

/-- The renderable document `generate_invoice` assembles before handing it to
the PDF collaborator (src/server.py lines 174–260): the customer metadata,
the visit date, the item table, and the paid/due lines. -/
structure InvoiceDoc where
  customerName : String
  contact : String
  date : Nat
  table : List (List String)
  paid : Int
  due : Int
deriving DecidableEq, Repr

/-- The result of `/generate_invoice/<id>` up to the external renderer:
either an error response or the assembled document. -/
inductive InvoiceResult where
  | err (status : Nat) (message : String)
  | pdf (doc : InvoiceDoc)
deriving DecidableEq, Repr

/-- The `/generate_invoice/<id>` handler (src/server.py lines 162–262):
404 when the customer is absent, 404 ("No purchases found") when the
customer has no visit, otherwise the document built from the latest visit. -/
def generate_invoice (st : Store) (cid : Nat) : InvoiceResult :=
  match st.customers.find? (fun c => c.id == cid) with
  | none => .err 404 "Customer not found"
  | some c =>
    match latestVisit st.visits cid with
    | none => .err 404 "No purchases found"
    | some v => .pdf ⟨c.name, c.contact, v.date, buildTable v.purchased_items,
        v.paid_amount, v.due_amount⟩

/-! ## Substring infrastructure -/

/-- `p` is a leading block of `xs`. -/
def IsPre (p xs : Chars) : Prop := ∃ t, xs = p ++ t

/-- `zs` is a trailing block of `xs`. -/
def IsSuf (zs xs : Chars) : Prop := ∃ t, xs = t ++ zs

theorem isPrefixOf_true_iff : ∀ p l : Chars, p.isPrefixOf l = true ↔ IsPre p l := by
  intro p
  induction p with
  | nil => intro l; simp [List.isPrefixOf, IsPre]
  | cons a as ih =>
    intro l
    cases l with
    | nil =>
      simp only [List.isPrefixOf, IsPre]
      constructor
      · intro h; cases h
      · rintro ⟨t, ht⟩; cases ht
    | cons b bs =>
      simp only [List.isPrefixOf, Bool.and_eq_true, beq_iff_eq, ih]
      constructor
      · rintro ⟨rfl, t, rfl⟩; exact ⟨t, rfl⟩
      · rintro ⟨t, ht⟩
        injection ht with h1 h2
        exact ⟨h1.symm, t, h2⟩

theorem isPrefixOf_false_iff (p l : Chars) : p.isPrefixOf l = false ↔ ¬ IsPre p l := by
  rw [← isPrefixOf_true_iff]
  cases h : p.isPrefixOf l <;> simp

theorem IsPre.trunc {p a b : Chars} (h : IsPre p (a ++ b)) (hl : p.length ≤ a.length) :
    IsPre p a := by
  obtain ⟨t, ht⟩ := h
  refine ⟨a.drop p.length, ?_⟩
  have h1 : (a ++ b).take p.length = p := by
    rw [ht, List.take_append_eq_append_take]
    simp
  have h2 : (a ++ b).take p.length = a.take p.length := by
    rw [List.take_append_eq_append_take, Nat.sub_eq_zero_of_le hl]
    simp
  have hp : a.take p.length = p := by rw [← h2, h1]
  conv_lhs => rw [← List.take_append_drop p.length a]
  rw [hp]

theorem IsSuf.mem {zs xs : Chars} (h : IsSuf zs xs) {a : Char} (ha : a ∈ zs) : a ∈ xs := by
  obtain ⟨t, rfl⟩ := h
  exact List.mem_append_right _ ha

theorem IsSuf.last_eq {zs xs : Chars} (h : IsSuf zs xs) (hz : zs ≠ []) :
    xs.getLast? = zs.getLast? := by
  obtain ⟨t, rfl⟩ := h
  exact List.getLast?_append_of_ne_nil t hz

theorem IsSuf_cons_iff {zs : Chars} {c : Char} {cs : Chars} :
    IsSuf zs (c :: cs) ↔ zs = c :: cs ∨ IsSuf zs cs := by
  constructor
  · rintro ⟨t, ht⟩
    cases t with
    | nil => left; exact ht.symm
    | cons d ds =>
      right
      injection ht with _ h2
      exact ⟨ds, h2⟩
  · rintro (rfl | ⟨t, rfl⟩)
    · exact ⟨[], rfl⟩
    · exact ⟨c :: t, rfl⟩

theorem occursIn_false_iff (pat : Chars) :
    ∀ xs : Chars, occursIn pat xs = false ↔ ∀ zs, IsSuf zs xs → pat.isPrefixOf zs = false := by
  intro xs
  induction xs with
  | nil =>
    simp only [occursIn]
    constructor
    · intro h zs hz
      obtain ⟨t, ht⟩ := hz
      have : t = [] ∧ zs = [] := by
        constructor
        · cases t with
          | nil => rfl
          | cons a as => cases ht
        · cases zs with
          | nil => rfl
          | cons a as =>
            cases t <;> cases ht
      rw [this.2]; exact h
    · intro h; exact h [] ⟨[], rfl⟩
  | cons c cs ih =>
    simp only [occursIn, Bool.or_eq_false_iff, ih]
    constructor
    · rintro ⟨h1, h2⟩ zs hz
      rcases IsSuf_cons_iff.mp hz with rfl | hz'
      · exact h1
      · exact h2 zs hz'
    · intro h
      exact ⟨h _ ⟨[], rfl⟩, fun zs hz => h zs (IsSuf_cons_iff.mpr (Or.inr hz))⟩

/-! ## The split scanner -/

theorem splitGo_skip (sep : Chars) :
    ∀ (pre l₂ acc : Chars), splitGo sep (pre ++ l₂) pre.length acc = splitGo sep l₂ 0 acc := by
  intro pre
  induction pre with
  | nil => intro l₂ acc; rfl
  | cons c cs ih => intro l₂ acc; simpa [splitGo] using ih l₂ acc

theorem splitGo_sep_cons (sep : Chars) (hs : sep ≠ []) (l₂ acc : Chars) :
    splitGo sep (sep ++ l₂) 0 acc = acc.reverse :: splitGo sep l₂ 0 [] := by
  obtain ⟨s, ss, rfl⟩ : ∃ a as, sep = a :: as := by
    cases sep with
    | nil => exact absurd rfl hs
    | cons a as => exact ⟨a, as, rfl⟩
  have hpre : (s :: ss).isPrefixOf (s :: (ss ++ l₂)) = true :=
    (isPrefixOf_true_iff _ _).mpr ⟨l₂, by simp⟩
  rw [List.cons_append]
  simp only [splitGo, hpre, if_true, List.length_cons, Nat.add_sub_cancel]
  rw [splitGo_skip (s :: ss) ss l₂ []]

theorem splitGo_noOcc (sep : Chars) (_hs : sep ≠ []) :
    ∀ (xs acc : Chars), (∀ zs, zs ≠ [] → IsSuf zs xs → ¬ IsPre sep zs) →
      splitGo sep xs 0 acc = [acc.reverse ++ xs] := by
  intro xs
  induction xs with
  | nil => intro acc _; simp [splitGo]
  | cons c cs ih =>
    intro acc h
    have hno : sep.isPrefixOf (c :: cs) = false :=
      (isPrefixOf_false_iff _ _).mpr (h (c :: cs) (by simp) ⟨[], rfl⟩)
    have ih' := ih (c :: acc) fun zs hz hsuf =>
      h zs hz (IsSuf_cons_iff.mpr (Or.inr hsuf))
    simp only [splitGo, hno, if_neg, Bool.false_eq_true, not_false_iff, ite_false]
    rw [ih']
    simp

theorem splitGo_mid (sep : Chars) (hs : sep ≠ []) :
    ∀ (l₁ l₂ acc : Chars),
      (∀ zs, zs ≠ [] → IsSuf zs l₁ → ¬ IsPre sep (zs ++ sep ++ l₂)) →
      splitGo sep (l₁ ++ sep ++ l₂) 0 acc = (acc.reverse ++ l₁) :: splitGo sep l₂ 0 [] := by
  intro l₁
  induction l₁ with
  | nil =>
    intro l₂ acc _
    simpa using splitGo_sep_cons sep hs l₂ acc
  | cons c cs ih =>
    intro l₂ acc h
    have hno : sep.isPrefixOf (c :: cs ++ sep ++ l₂) = false := by
      rw [isPrefixOf_false_iff]
      exact h (c :: cs) (by simp) ⟨[], rfl⟩
    have ih' := ih l₂ (c :: acc) fun zs hz hsuf =>
      h zs hz (IsSuf_cons_iff.mpr (Or.inr hsuf))
    simp only [List.cons_append, List.append_assoc] at hno ih' ⊢
    simp only [splitGo, hno, Bool.false_eq_true, not_false_iff, ite_false]
    rw [ih']
    simp

/-- A part is safe for the separator when no non-empty trailing block of it,
continued by the separator, begins with the separator: the separator then
occurs neither inside the part nor straddling its right edge. -/
def SafePart (sep part : Chars) : Prop :=
  ∀ zs, zs ≠ [] → IsSuf zs part → ¬ IsPre sep (zs ++ sep)

theorem SafePart.no_internal {sep part : Chars} (h : SafePart sep part) :
    ∀ zs, zs ≠ [] → IsSuf zs part → ¬ IsPre sep zs := by
  rintro zs hz hsuf ⟨t, rfl⟩
  exact h _ hz hsuf ⟨t ++ sep, by simp⟩

theorem SafePart.no_mid {sep part : Chars} (h : SafePart sep part) (l₂ : Chars) :
    ∀ zs, zs ≠ [] → IsSuf zs part → ¬ IsPre sep (zs ++ sep ++ l₂) := by
  intro zs hz hsuf hpre
  have : IsPre sep ((zs ++ sep) ++ l₂) := by simpa [List.append_assoc] using hpre
  exact h _ hz hsuf (this.trunc (by simp))

theorem splitOnCL_joinL (sep : Chars) (hs : sep ≠ []) :
    ∀ parts : List Chars, parts ≠ [] → (∀ p ∈ parts, SafePart sep p) →
      splitOnCL sep (joinL sep parts) = parts := by
  intro parts
  induction parts with
  | nil => intro h; exact absurd rfl h
  | cons p ps ih =>
    intro _ hsafe
    cases ps with
    | nil =>
      simp only [joinL, splitOnCL]
      rw [splitGo_noOcc sep hs p []
        ((hsafe p (by simp)).no_internal)]
      rfl
    | cons q qs =>
      simp only [joinL, splitOnCL, List.append_assoc]
      have hmid := splitGo_mid sep hs p (joinL sep (q :: qs)) []
        (fun zs hz hsuf => (hsafe p (by simp)).no_mid _ zs hz hsuf)
      simp only [List.append_assoc] at hmid
      rw [hmid]
      simp only [List.reverse_nil, List.nil_append, List.cons.injEq, true_and]
      exact ih (by simp) (fun r hr => hsafe r (by simp [hr]))

theorem splitGo_ne_nil (sep : Chars) :
    ∀ (xs : Chars) (k : Nat) (acc : Chars), splitGo sep xs k acc ≠ [] := by
  intro xs
  induction xs with
  | nil => intro k acc; simp [splitGo]
  | cons c cs ih =>
    intro k acc
    match k with
    | k + 1 => simpa [splitGo] using ih k acc
    | 0 =>
      simp only [splitGo]
      split
      · simp
      · exact ih 0 (c :: acc)

theorem joinL_splitGo (sep : Chars) (hs : sep ≠ []) :
    ∀ (n : Nat) (xs acc : Chars), xs.length ≤ n →
      joinL sep (splitGo sep xs 0 acc) = acc.reverse ++ xs := by
  obtain ⟨s, ss, rfl⟩ : ∃ a as, sep = a :: as := by
    cases sep with
    | nil => exact absurd rfl hs
    | cons a as => exact ⟨a, as, rfl⟩
  intro n
  induction n with
  | zero =>
    intro xs acc hlen
    have : xs = [] := List.length_eq_zero.mp (Nat.le_zero.mp hlen)
    subst this
    simp [splitGo, joinL]
  | succ n ih =>
    intro xs acc hlen
    cases xs with
    | nil => simp [splitGo, joinL]
    | cons c cs =>
      have hcslen : cs.length ≤ n := Nat.succ_le_succ_iff.mp (by simpa using hlen)
      by_cases hp : (s :: ss).isPrefixOf (c :: cs) = true
      · obtain ⟨rest, hrest⟩ := (isPrefixOf_true_iff _ _).mp hp
        rw [List.cons_append] at hrest
        injection hrest with hc hcs
        subst hc
        simp only [splitGo, hp, if_true, List.length_cons, Nat.add_sub_cancel]
        have hskip : splitGo (c :: ss) cs ss.length [] = splitGo (c :: ss) rest 0 [] := by
          rw [hcs]
          exact splitGo_skip (c :: ss) ss rest []
        rw [hskip]
        have hrlen : rest.length ≤ n := by
          have h2 : rest.length ≤ cs.length := by
            rw [hcs]; simp
          exact Nat.le_trans h2 hcslen
        have ihr := ih rest [] hrlen
        obtain ⟨m, ms, hm⟩ : ∃ a as, splitGo (c :: ss) rest 0 ([] : Chars) = a :: as := by
          cases hsp : splitGo (c :: ss) rest 0 ([] : Chars) with
          | nil => exact absurd hsp (splitGo_ne_nil _ _ _ _)
          | cons a as => exact ⟨a, as, rfl⟩
        rw [hm]
        rw [hm] at ihr
        simp only [joinL]
        rw [ihr]
        simp [hcs]
      · have hp' : (s :: ss).isPrefixOf (c :: cs) = false := by
          cases h : (s :: ss).isPrefixOf (c :: cs)
          · rfl
          · exact absurd h hp
        simp only [splitGo, hp', Bool.false_eq_true, not_false_iff, ite_false]
        rw [ih cs (c :: acc) hcslen]
        simp

theorem joinL_splitOnCL (sep : Chars) (hs : sep ≠ []) (xs : Chars) :
    joinL sep (splitOnCL sep xs) = xs := by
  simpa using joinL_splitGo sep hs xs.length xs [] (Nat.le_refl _)

/-! ## Strip lemmas -/

theorem stripL_eq_self_of {xs : Chars}
    (h1 : ∀ c, xs.head? = some c → pyWs c = false)
    (h2 : ∀ c, xs.getLast? = some c → pyWs c = false) : stripL xs = xs := by
  have d1 : xs.dropWhile pyWs = xs := by
    cases xs with
    | nil => rfl
    | cons c cs =>
      rw [List.dropWhile_cons, h1 c rfl]
      simp
  show ((xs.dropWhile pyWs).reverse.dropWhile pyWs).reverse = xs
  rw [d1]
  have d2 : xs.reverse.dropWhile pyWs = xs.reverse := by
    cases hxr : xs.reverse with
    | nil => rfl
    | cons c cs =>
      have hc : xs.getLast? = some c := by
        rw [← List.head?_reverse, hxr]; rfl
      rw [List.dropWhile_cons, h2 c hc]
      simp
  rw [d2, List.reverse_reverse]

theorem dropWhile_head_false {p : Char → Bool} {xs : Chars}
    (h : xs.dropWhile p = xs) : ∀ c, xs.head? = some c → p c = false := by
  intro c hc
  cases xs with
  | nil => cases hc
  | cons a as =>
    have hca : c = a := by
      injection hc with h'; exact h'.symm
    subst hca
    cases hp : p c
    · rfl
    · rw [List.dropWhile_cons, hp] at h
      simp only [if_true] at h
      have hlen := congrArg List.length h
      have hle : (as.dropWhile p).length ≤ as.length :=
        List.IsSuffix.length_le (List.dropWhile_suffix p)
      simp only [List.length_cons] at hlen
      omega

theorem stripL_self_parts {xs : Chars} (h : stripL xs = xs) :
    xs.dropWhile pyWs = xs ∧ xs.reverse.dropWhile pyWs = xs.reverse := by
  have hs : ((xs.dropWhile pyWs).reverse.dropWhile pyWs).reverse = xs := h
  have l1 : (xs.dropWhile pyWs).length ≤ xs.length :=
    List.IsSuffix.length_le (List.dropWhile_suffix pyWs)
  have l2 : ((xs.dropWhile pyWs).reverse.dropWhile pyWs).length
      ≤ (xs.dropWhile pyWs).reverse.length :=
    List.IsSuffix.length_le (List.dropWhile_suffix pyWs)
  have hlen := congrArg List.length hs
  simp only [List.length_reverse] at hlen l2
  have e1 : (xs.dropWhile pyWs).length = xs.length := by omega
  have d1 : xs.dropWhile pyWs = xs :=
    List.Sublist.eq_of_length (List.IsSuffix.sublist (List.dropWhile_suffix pyWs)) e1
  refine ⟨d1, ?_⟩
  rw [d1] at hs
  have : xs.reverse.dropWhile pyWs = (xs.reverse.dropWhile pyWs).reverse.reverse := by
    rw [List.reverse_reverse]
  rw [this, hs]

theorem stripL_head_false {xs : Chars} (h : stripL xs = xs) :
    ∀ c, xs.head? = some c → pyWs c = false :=
  dropWhile_head_false (stripL_self_parts h).1

theorem stripL_last_false {xs : Chars} (h : stripL xs = xs) :
    ∀ c, xs.getLast? = some c → pyWs c = false := by
  intro c hc
  exact dropWhile_head_false (stripL_self_parts h).2 c
    (by rw [List.head?_reverse]; exact hc)

theorem pyStrip_eq_self_iff {s : String} : pyStrip s = s ↔ stripL s.data = s.data := by
  constructor
  · intro h
    have := congrArg String.data h
    exact this
  · intro h
    show String.mk (stripL s.data) = s
    rw [h]

/-! ## Decoder field lemmas -/

theorem fieldSpecs_cases {pr : String × (LineItem → String)} (h : pr ∈ fieldSpecs) :
    pr = ("Item: ", LineItem.name) ∨ pr = ("Gross: ", LineItem.grossWeight) ∨
    pr = ("Wastage: ", LineItem.wastagePercent) ∨ pr = ("Net: ", LineItem.netWeight) ∨
    pr = ("Gold Rate: Rs.", LineItem.goldRate) ∨ pr = ("Lab Rate: Rs.", LineItem.labRate) ∨
    pr = ("Amount: Rs.", LineItem.amount) := by
  simpa [fieldSpecs] using h

theorem decodeStep_preserves {pr : String × (LineItem → String)} (hpr : pr ∈ fieldSpecs)
    (st : LineItem) (p : String) (hp : pyStartswith p pr.1 = false) :
    pr.2 (decodeStep st p) = pr.2 st := by
  rcases fieldSpecs_cases hpr with rfl | rfl | rfl | rfl | rfl | rfl | rfl <;>
    (unfold decodeStep; split_ifs <;> simp_all)

theorem foldl_decodeStep_absent {pr : String × (LineItem → String)} (hpr : pr ∈ fieldSpecs) :
    ∀ (l : List String) (st : LineItem),
      (∀ part ∈ l, pyStartswith part pr.1 = false) →
      pr.2 (l.foldl decodeStep st) = pr.2 st := by
  intro l
  induction l with
  | nil => intro st _; rfl
  | cons p ps ih =>
    intro st h
    simp only [List.foldl_cons]
    rw [ih _ (fun q hq => h q (by simp [hq]))]
    exact decodeStep_preserves hpr st p (h p (by simp))

theorem stripItem_field {pr : String × (LineItem → String)} (hpr : pr ∈ fieldSpecs)
    (st : LineItem) : pr.2 (stripItem st) = pyStrip (pr.2 st) := by
  rcases fieldSpecs_cases hpr with rfl | rfl | rfl | rfl | rfl | rfl | rfl <;> rfl

theorem emptyItem_field {pr : String × (LineItem → String)} (hpr : pr ∈ fieldSpecs) :
    pr.2 emptyItem = "" := by
  rcases fieldSpecs_cases hpr with rfl | rfl | rfl | rfl | rfl | rfl | rfl <;> rfl

/-- C1: decode fails (`MalformedItem`, embedded as `none`) if and only if the
trimmed string does not start with `"Item: "` (segment splitting is total, so
it never throws); for a string that does start with `"Item: "`, every segment
whose prefix is not among the known key prefixes leaves the decoded record
unchanged (is silently ignored), every field absent from the segments decodes
to the empty string, and `decode("Item: Ring")` succeeds with name `"Ring"`
and all other fields empty. -/
theorem c1_decode_failure_and_leniency :
    (∀ s : String, decodeItem s = none ↔ pyStartswith (pyStrip s) "Item: " = false) ∧
    (∀ (st : LineItem) (part : String),
      (∀ p ∈ knownPrefixes, pyStartswith part p = false) → decodeStep st part = st) ∧
    (∀ (s : String) (r : LineItem), decodeItem s = some r →
      ∀ pr ∈ fieldSpecs,
        (∀ part ∈ pySplit (pyStrip s) " | ", pyStartswith part pr.1 = false) →
        pr.2 r = "") ∧
    decodeItem "Item: Ring" = some ⟨"Ring", "", "", "", "", "", ""⟩ := by
  refine ⟨?_, ?_, ?_, by decide⟩
  · intro s
    unfold decodeItem
    by_cases hg : pyStrip s = "" ∨ pyStartswith (pyStrip s) "Item: " = false
    · rw [if_pos hg]
      constructor
      · intro _
        rcases hg with hg | hg
        · rw [hg]; decide
        · exact hg
      · intro _; rfl
    · rw [if_neg hg]
      push_neg at hg
      constructor
      · intro h; simp at h
      · intro h; exact absurd h hg.2
  · intro st part h
    have h1 := h "Item: " (by simp [knownPrefixes, fieldSpecs])
    have h2 := h "Gross: " (by simp [knownPrefixes, fieldSpecs])
    have h3 := h "Wastage: " (by simp [knownPrefixes, fieldSpecs])
    have h4 := h "Net: " (by simp [knownPrefixes, fieldSpecs])
    have h5 := h "Gold Rate: Rs." (by simp [knownPrefixes, fieldSpecs])
    have h6 := h "Lab Rate: Rs." (by simp [knownPrefixes, fieldSpecs])
    have h7 := h "Amount: Rs." (by simp [knownPrefixes, fieldSpecs])
    unfold decodeStep
    simp [h1, h2, h3, h4, h5, h6, h7]
  · intro s r hr pr hpr hparts
    unfold decodeItem at hr
    split_ifs at hr with hg
    cases hr
    rw [stripItem_field hpr, foldl_decodeStep_absent hpr _ _ hparts,
      emptyItem_field hpr]
    rfl

/-- Witness for C1 at concrete inputs: an unrecognised segment leaves the
record unchanged, and the concrete example decodes as stated. -/
theorem c1_decode_failure_and_leniency_witness :
    decodeItem "zzz" = none ∧
    decodeStep ⟨"a", "b", "c", "d", "e", "f", "g"⟩ "Fineness: 22k"
      = ⟨"a", "b", "c", "d", "e", "f", "g"⟩ ∧
    (∀ r : LineItem, decodeItem "Item: Ring | Bogus: 9" = some r → r.grossWeight = "") ∧
    decodeItem "Item: Ring" = some ⟨"Ring", "", "", "", "", "", ""⟩ := by
  obtain ⟨h1, h2, h3, h4⟩ := c1_decode_failure_and_leniency
  refine ⟨(h1 "zzz").mpr (by decide), h2 _ _ (by decide), ?_, h4⟩
  intro r hr
  exact h3 _ r hr ("Gross: ", LineItem.grossWeight) (by simp [fieldSpecs]) (by decide)

/-! ## String data lemmas -/

theorem data_append (a b : String) : (a ++ b).data = a.data ++ b.data := rfl

theorem mk_data (s : String) : String.mk s.data = s := rfl

theorem eq_empty_of_data {s : String} (h : s.data = []) : s = "" := congrArg String.mk h

theorem data_ne_nil {s : String} (h : s ≠ "") : s.data ≠ [] :=
  fun hd => h (eq_empty_of_data hd)

theorem joinSep_data (sep : String) :
    ∀ ps : List String, (joinSep sep ps).data = joinL sep.data (ps.map String.data)
  | [] => rfl
  | [_] => rfl
  | p :: q :: ps => by
    simp only [joinSep, joinL, List.map_cons, data_append]
    have := joinSep_data sep (q :: ps)
    simp only [List.map_cons] at this
    rw [this]

/-! ## Safe parts for the `" | "` separator -/

theorem safePart_pipe {part : Chars} (h1 : '|' ∉ part) : SafePart (" | ".data) part := by
  rw [show (" | " : String).data = [' ', '|', ' '] from rfl]
  rintro zs hz hsuf ⟨t, ht⟩
  cases zs with
  | nil => exact hz rfl
  | cons z zs' =>
    simp only [List.cons_append, List.nil_append] at ht
    injection ht with h2 h3
    cases zs' with
    | nil =>
      injection h3 with h4 _
      exact absurd h4 (by decide)
    | cons w zs'' =>
      simp only [List.cons_append] at h3
      injection h3 with h4 _
      exact h1 (hsuf.mem (by simp [h4]))

theorem occursIn_append_single {pat f : Chars} {u : Char} (hpat : pat ≠ [])
    (hocc : occursIn pat f = false) (hlast : pat.getLast? ≠ some u) :
    occursIn pat (f ++ [u]) = false := by
  rw [occursIn_false_iff] at hocc ⊢
  intro zs hsuf
  obtain ⟨t, ht⟩ := hsuf
  rcases List.eq_nil_or_concat zs with rfl | ⟨l, b, hzs⟩
  · cases pat with
    | nil => exact absurd rfl hpat
    | cons p ps => rfl
  · rw [List.concat_eq_append] at hzs
    subst hzs
    have ht' : f ++ [u] = (t ++ l) ++ [b] := by
      rw [ht]; simp [List.append_assoc]
    obtain ⟨hfl, hub⟩ := List.append_inj' ht' rfl
    have hub' : u = b := by simpa using hub
    subst hub'
    have hsl : IsSuf l f := ⟨t, hfl⟩
    rw [isPrefixOf_false_iff]
    rintro ⟨t', ht''⟩
    by_cases hlen : pat.length ≤ l.length
    · have : IsPre pat l := IsPre.trunc ⟨t', ht''⟩ hlen
      have := (isPrefixOf_false_iff pat l).mp (hocc l hsl)
      exact this ‹IsPre pat l›
    · have hlen2 : (l ++ [u]).length = pat.length + t'.length := by
        rw [ht'']; simp
      have ht'nil : t' = [] := by
        have : l.length + 1 = pat.length + t'.length := by simpa using hlen2
        have : t'.length = 0 := by omega
        exact List.length_eq_zero.mp this
      subst ht'nil
      have hpe : pat = l ++ [u] := by rw [ht'']; simp
      apply hlast
      rw [hpe]
      simp

/-! ## Extraction of a segment's value -/

theorem splitAfter_append (pre f : String) (hpre : pre.data ≠ [])
    (hocc : occursIn pre.data f.data = false) : splitAfter (pre ++ f) pre = f := by
  have hno : ∀ zs, zs ≠ [] → IsSuf zs f.data → ¬ IsPre pre.data zs := by
    intro zs _ hsuf hp
    have h2 := (occursIn_false_iff pre.data f.data).mp hocc zs hsuf
    rw [isPrefixOf_false_iff] at h2
    exact h2 hp
  have hsplit : splitOnCL pre.data (pre.data ++ f.data) = [[], f.data] := by
    unfold splitOnCL
    rw [splitGo_sep_cons pre.data hpre f.data [],
      splitGo_noOcc pre.data hpre f.data [] hno]
    rfl
  unfold splitAfter pySplit
  rw [data_append, hsplit]
  simp [mk_data]

theorem pyRstrip_append (f : String) (u : Char) (hlast : f.data.getLast? ≠ some u) :
    pyRstrip (f ++ String.mk [u]) u = f := by
  show String.mk (((f ++ String.mk [u]).data.reverse.dropWhile (· == u)).reverse) = f
  rw [data_append]
  rw [show (String.mk [u]).data = [u] from rfl]
  rw [List.reverse_append]
  simp only [List.reverse_cons, List.reverse_nil, List.nil_append, List.singleton_append]
  rw [List.dropWhile_cons]
  simp only [beq_self_eq_true, if_true]
  have hdw : f.data.reverse.dropWhile (· == u) = f.data.reverse := by
    cases hr : f.data.reverse with
    | nil => rfl
    | cons c cs =>
      have hc : f.data.getLast? = some c := by
        rw [← List.head?_reverse, hr]; rfl
      have hcu : (c == u) = false := by
        cases h : c == u
        · rfl
        · exact absurd (by rw [hc, beq_iff_eq.mp h]) hlast
      rw [List.dropWhile_cons, hcu]
      simp
  rw [hdw, List.reverse_reverse]

/-! ## Literal character data of the key prefixes and segments -/

theorem data_pre_item : ("Item: " : String).data = ['I', 't', 'e', 'm', ':', ' '] := rfl
theorem data_pre_gross : ("Gross: " : String).data = ['G', 'r', 'o', 's', 's', ':', ' '] := rfl
theorem data_pre_wastage :
    ("Wastage: " : String).data = ['W', 'a', 's', 't', 'a', 'g', 'e', ':', ' '] := rfl
theorem data_pre_net : ("Net: " : String).data = ['N', 'e', 't', ':', ' '] := rfl
theorem data_pre_gold : ("Gold Rate: Rs." : String).data
    = ['G', 'o', 'l', 'd', ' ', 'R', 'a', 't', 'e', ':', ' ', 'R', 's', '.'] := rfl
theorem data_pre_lab : ("Lab Rate: Rs." : String).data
    = ['L', 'a', 'b', ' ', 'R', 'a', 't', 'e', ':', ' ', 'R', 's', '.'] := rfl
theorem data_pre_amount : ("Amount: Rs." : String).data
    = ['A', 'm', 'o', 'u', 'n', 't', ':', ' ', 'R', 's', '.'] := rfl

theorem data_seg_item (f : String) :
    ("Item: " ++ f).data = 'I' :: 't' :: 'e' :: 'm' :: ':' :: ' ' :: f.data := rfl
theorem data_seg_gross (f : String) : ("Gross: " ++ f ++ "g").data
    = 'G' :: 'r' :: 'o' :: 's' :: 's' :: ':' :: ' ' :: (f.data ++ ['g']) := rfl
theorem data_seg_wastage (f : String) : ("Wastage: " ++ f ++ "%").data
    = 'W' :: 'a' :: 's' :: 't' :: 'a' :: 'g' :: 'e' :: ':' :: ' ' :: (f.data ++ ['%']) := rfl
theorem data_seg_net (f : String) : ("Net: " ++ f ++ "g").data
    = 'N' :: 'e' :: 't' :: ':' :: ' ' :: (f.data ++ ['g']) := rfl
theorem data_seg_gold (f : String) : ("Gold Rate: Rs." ++ f).data
    = 'G' :: 'o' :: 'l' :: 'd' :: ' ' :: 'R' :: 'a' :: 't' :: 'e' :: ':' :: ' '
      :: 'R' :: 's' :: '.' :: f.data := rfl
theorem data_seg_lab (f : String) : ("Lab Rate: Rs." ++ f).data
    = 'L' :: 'a' :: 'b' :: ' ' :: 'R' :: 'a' :: 't' :: 'e' :: ':' :: ' '
      :: 'R' :: 's' :: '.' :: f.data := rfl
theorem data_seg_amount (f : String) : ("Amount: Rs." ++ f).data
    = 'A' :: 'm' :: 'o' :: 'u' :: 'n' :: 't' :: ':' :: ' ' :: 'R' :: 's' :: '.' :: f.data := rfl

theorem sw_unfold (s pre : String) : pyStartswith s pre = pre.data.isPrefixOf s.data := rfl

/-! ## How the segment loop treats each encoded segment -/

theorem decodeStep_seg1 (st : LineItem) (f : String) :
    decodeStep st ("Item: " ++ f)
      = { st with name := splitAfter ("Item: " ++ f) "Item: " } := by
  have h1 : pyStartswith ("Item: " ++ f) "Item: " = true := by
    rw [sw_unfold, data_pre_item, data_seg_item]
    simp [List.isPrefixOf_cons₂]
  unfold decodeStep
  simp [h1]

theorem decodeStep_seg2 (st : LineItem) (f : String) :
    decodeStep st ("Gross: " ++ f ++ "g")
      = { st with grossWeight := pyRstrip (splitAfter ("Gross: " ++ f ++ "g") "Gross: ") 'g' } := by
  have h1 : pyStartswith ("Gross: " ++ f ++ "g") "Item: " = false := by
    rw [sw_unfold, data_pre_item, data_seg_gross, List.isPrefixOf_cons₂]; simp
  have h2 : pyStartswith ("Gross: " ++ f ++ "g") "Gross: " = true := by
    rw [sw_unfold, data_pre_gross, data_seg_gross]
    simp [List.isPrefixOf_cons₂]
  unfold decodeStep
  simp [h1, h2]

theorem decodeStep_seg3 (st : LineItem) (f : String) :
    decodeStep st ("Wastage: " ++ f ++ "%")
      = { st with wastagePercent :=
          pyRstrip (splitAfter ("Wastage: " ++ f ++ "%") "Wastage: ") '%' } := by
  have h1 : pyStartswith ("Wastage: " ++ f ++ "%") "Item: " = false := by
    rw [sw_unfold, data_pre_item, data_seg_wastage, List.isPrefixOf_cons₂]; simp
  have h2 : pyStartswith ("Wastage: " ++ f ++ "%") "Gross: " = false := by
    rw [sw_unfold, data_pre_gross, data_seg_wastage, List.isPrefixOf_cons₂]; simp
  have h3 : pyStartswith ("Wastage: " ++ f ++ "%") "Wastage: " = true := by
    rw [sw_unfold, data_pre_wastage, data_seg_wastage]
    simp [List.isPrefixOf_cons₂]
  unfold decodeStep
  simp [h1, h2, h3]

theorem decodeStep_seg4 (st : LineItem) (f : String) :
    decodeStep st ("Net: " ++ f ++ "g")
      = { st with netWeight := pyRstrip (splitAfter ("Net: " ++ f ++ "g") "Net: ") 'g' } := by
  have h1 : pyStartswith ("Net: " ++ f ++ "g") "Item: " = false := by
    rw [sw_unfold, data_pre_item, data_seg_net, List.isPrefixOf_cons₂]; simp
  have h2 : pyStartswith ("Net: " ++ f ++ "g") "Gross: " = false := by
    rw [sw_unfold, data_pre_gross, data_seg_net, List.isPrefixOf_cons₂]; simp
  have h3 : pyStartswith ("Net: " ++ f ++ "g") "Wastage: " = false := by
    rw [sw_unfold, data_pre_wastage, data_seg_net, List.isPrefixOf_cons₂]; simp
  have h4 : pyStartswith ("Net: " ++ f ++ "g") "Net: " = true := by
    rw [sw_unfold, data_pre_net, data_seg_net]
    simp [List.isPrefixOf_cons₂]
  unfold decodeStep
  simp [h1, h2, h3, h4]

theorem decodeStep_seg5 (st : LineItem) (f : String) :
    decodeStep st ("Gold Rate: Rs." ++ f)
      = { st with goldRate := splitAfter ("Gold Rate: Rs." ++ f) "Gold Rate: Rs." } := by
  have h1 : pyStartswith ("Gold Rate: Rs." ++ f) "Item: " = false := by
    rw [sw_unfold, data_pre_item, data_seg_gold, List.isPrefixOf_cons₂]; simp
  have h2 : pyStartswith ("Gold Rate: Rs." ++ f) "Gross: " = false := by
    rw [sw_unfold, data_pre_gross, data_seg_gold]
    simp [List.isPrefixOf_cons₂]
  have h3 : pyStartswith ("Gold Rate: Rs." ++ f) "Wastage: " = false := by
    rw [sw_unfold, data_pre_wastage, data_seg_gold, List.isPrefixOf_cons₂]; simp
  have h4 : pyStartswith ("Gold Rate: Rs." ++ f) "Net: " = false := by
    rw [sw_unfold, data_pre_net, data_seg_gold, List.isPrefixOf_cons₂]; simp
  have h5 : pyStartswith ("Gold Rate: Rs." ++ f) "Gold Rate: Rs." = true := by
    rw [sw_unfold, data_pre_gold, data_seg_gold]
    simp [List.isPrefixOf_cons₂]
  unfold decodeStep
  simp [h1, h2, h3, h4, h5]

theorem decodeStep_seg6 (st : LineItem) (f : String) :
    decodeStep st ("Lab Rate: Rs." ++ f)
      = { st with labRate := splitAfter ("Lab Rate: Rs." ++ f) "Lab Rate: Rs." } := by
  have h1 : pyStartswith ("Lab Rate: Rs." ++ f) "Item: " = false := by
    rw [sw_unfold, data_pre_item, data_seg_lab, List.isPrefixOf_cons₂]; simp
  have h2 : pyStartswith ("Lab Rate: Rs." ++ f) "Gross: " = false := by
    rw [sw_unfold, data_pre_gross, data_seg_lab, List.isPrefixOf_cons₂]; simp
  have h3 : pyStartswith ("Lab Rate: Rs." ++ f) "Wastage: " = false := by
    rw [sw_unfold, data_pre_wastage, data_seg_lab, List.isPrefixOf_cons₂]; simp
  have h4 : pyStartswith ("Lab Rate: Rs." ++ f) "Net: " = false := by
    rw [sw_unfold, data_pre_net, data_seg_lab, List.isPrefixOf_cons₂]; simp
  have h5 : pyStartswith ("Lab Rate: Rs." ++ f) "Gold Rate: Rs." = false := by
    rw [sw_unfold, data_pre_gold, data_seg_lab, List.isPrefixOf_cons₂]; simp
  have h6 : pyStartswith ("Lab Rate: Rs." ++ f) "Lab Rate: Rs." = true := by
    rw [sw_unfold, data_pre_lab, data_seg_lab]
    simp [List.isPrefixOf_cons₂]
  unfold decodeStep
  simp [h1, h2, h3, h4, h5, h6]

theorem decodeStep_seg7 (st : LineItem) (f : String) :
    decodeStep st ("Amount: Rs." ++ f)
      = { st with amount := splitAfter ("Amount: Rs." ++ f) "Amount: Rs." } := by
  have h1 : pyStartswith ("Amount: Rs." ++ f) "Item: " = false := by
    rw [sw_unfold, data_pre_item, data_seg_amount, List.isPrefixOf_cons₂]; simp
  have h2 : pyStartswith ("Amount: Rs." ++ f) "Gross: " = false := by
    rw [sw_unfold, data_pre_gross, data_seg_amount, List.isPrefixOf_cons₂]; simp
  have h3 : pyStartswith ("Amount: Rs." ++ f) "Wastage: " = false := by
    rw [sw_unfold, data_pre_wastage, data_seg_amount, List.isPrefixOf_cons₂]; simp
  have h4 : pyStartswith ("Amount: Rs." ++ f) "Net: " = false := by
    rw [sw_unfold, data_pre_net, data_seg_amount, List.isPrefixOf_cons₂]; simp
  have h5 : pyStartswith ("Amount: Rs." ++ f) "Gold Rate: Rs." = false := by
    rw [sw_unfold, data_pre_gold, data_seg_amount, List.isPrefixOf_cons₂]; simp
  have h6 : pyStartswith ("Amount: Rs." ++ f) "Lab Rate: Rs." = false := by
    rw [sw_unfold, data_pre_lab, data_seg_amount, List.isPrefixOf_cons₂]; simp
  have h7 : pyStartswith ("Amount: Rs." ++ f) "Amount: Rs." = true := by
    rw [sw_unfold, data_pre_amount, data_seg_amount]
    simp [List.isPrefixOf_cons₂]
  unfold decodeStep
  simp [h1, h2, h3, h4, h5, h6, h7]

/-! ## Round-trip conditions -/

/-- The conditions on one field under which its encoded segment survives the
decoder: non-empty, already whitespace-trimmed, free of the `'|'` character
(so `" | "` cannot occur inside or straddling the segment), and free of the
field's own key prefix (so `part.split(prefix)[1]` returns the whole
value). -/
abbrev GoodField (pre f : String) : Prop :=
  f ≠ "" ∧ pyStrip f = f ∧ '|' ∉ f.data ∧ occursIn pre.data f.data = false

/-- The conditions under which `decode (encode x) = x`: every field is a
good field for its key prefix, and the fields carrying a unit suffix do not
themselves end with the unit character that `rstrip` would eat. -/
abbrev GoodItem (x : LineItem) : Prop :=
  GoodField "Item: " x.name ∧ GoodField "Gross: " x.grossWeight ∧
  GoodField "Wastage: " x.wastagePercent ∧ GoodField "Net: " x.netWeight ∧
  GoodField "Gold Rate: Rs." x.goldRate ∧ GoodField "Lab Rate: Rs." x.labRate ∧
  GoodField "Amount: Rs." x.amount ∧
  x.grossWeight.data.getLast? ≠ some 'g' ∧ x.netWeight.data.getLast? ≠ some 'g' ∧
  x.wastagePercent.data.getLast? ≠ some '%'

theorem encode_isPre_item (x : LineItem) : IsPre "Item: ".data (encodeItem x).data :=
  ⟨x.name.data ++ " | ".data ++ "Gross: ".data ++ x.grossWeight.data ++ "g".data
      ++ " | ".data ++ "Wastage: ".data ++ x.wastagePercent.data ++ "%".data
      ++ " | ".data ++ "Net: ".data ++ x.netWeight.data ++ "g".data
      ++ " | ".data ++ "Gold Rate: Rs.".data ++ x.goldRate.data
      ++ " | ".data ++ "Lab Rate: Rs.".data ++ x.labRate.data
      ++ " | ".data ++ "Amount: Rs.".data ++ x.amount.data,
    by simp [encodeItem, joinSep, data_append, List.append_assoc]⟩

theorem encode_amount_suffix (x : LineItem) : IsSuf x.amount.data (encodeItem x).data :=
  ⟨"Item: ".data ++ x.name.data ++ " | ".data ++ "Gross: ".data ++ x.grossWeight.data
      ++ "g".data ++ " | ".data ++ "Wastage: ".data ++ x.wastagePercent.data ++ "%".data
      ++ " | ".data ++ "Net: ".data ++ x.netWeight.data ++ "g".data
      ++ " | ".data ++ "Gold Rate: Rs.".data ++ x.goldRate.data
      ++ " | ".data ++ "Lab Rate: Rs.".data ++ x.labRate.data
      ++ " | ".data ++ "Amount: Rs.".data,
    by simp [encodeItem, joinSep, data_append, List.append_assoc]⟩

theorem encode_ne_empty (x : LineItem) : encodeItem x ≠ "" := by
  intro h
  obtain ⟨t', ht⟩ := encode_isPre_item x
  rw [h, data_pre_item] at ht
  exact absurd ht (by simp)

theorem encode_startswith (x : LineItem) : pyStartswith (encodeItem x) "Item: " = true := by
  rw [sw_unfold]
  exact (isPrefixOf_true_iff _ _).mpr (encode_isPre_item x)

theorem encode_head (x : LineItem) : (encodeItem x).data.head? = some 'I' := by
  obtain ⟨t', ht⟩ := encode_isPre_item x
  rw [ht, data_pre_item]
  rfl

theorem encode_pyStrip (x : LineItem) (ha1 : x.amount ≠ "")
    (ha2 : pyStrip x.amount = x.amount) : pyStrip (encodeItem x) = encodeItem x := by
  rw [pyStrip_eq_self_iff]
  apply stripL_eq_self_of
  · intro c hc
    rw [encode_head x] at hc
    cases hc
    decide
  · intro c hc
    rw [(encode_amount_suffix x).last_eq (data_ne_nil ha1)] at hc
    exact stripL_last_false (pyStrip_eq_self_iff.mp ha2) c hc

theorem encode_split (x : LineItem)
    (h1 : '|' ∉ x.name.data) (h2 : '|' ∉ x.grossWeight.data)
    (h3 : '|' ∉ x.wastagePercent.data) (h4 : '|' ∉ x.netWeight.data)
    (h5 : '|' ∉ x.goldRate.data) (h6 : '|' ∉ x.labRate.data)
    (h7 : '|' ∉ x.amount.data) :
    pySplit (encodeItem x) " | " =
      ["Item: " ++ x.name, "Gross: " ++ x.grossWeight ++ "g",
       "Wastage: " ++ x.wastagePercent ++ "%", "Net: " ++ x.netWeight ++ "g",
       "Gold Rate: Rs." ++ x.goldRate, "Lab Rate: Rs." ++ x.labRate,
       "Amount: Rs." ++ x.amount] := by
  have hdata : (encodeItem x).data = joinL " | ".data
      (["Item: " ++ x.name, "Gross: " ++ x.grossWeight ++ "g",
        "Wastage: " ++ x.wastagePercent ++ "%", "Net: " ++ x.netWeight ++ "g",
        "Gold Rate: Rs." ++ x.goldRate, "Lab Rate: Rs." ++ x.labRate,
        "Amount: Rs." ++ x.amount].map String.data) :=
    joinSep_data " | " _
  have hsafe : ∀ p ∈ (["Item: " ++ x.name, "Gross: " ++ x.grossWeight ++ "g",
      "Wastage: " ++ x.wastagePercent ++ "%", "Net: " ++ x.netWeight ++ "g",
      "Gold Rate: Rs." ++ x.goldRate, "Lab Rate: Rs." ++ x.labRate,
      "Amount: Rs." ++ x.amount].map String.data), SafePart " | ".data p := by
    intro p hp
    simp only [List.map_cons, List.map_nil, List.mem_cons, List.not_mem_nil, or_false] at hp
    rcases hp with rfl | rfl | rfl | rfl | rfl | rfl | rfl
    · exact safePart_pipe (by rw [data_seg_item]; simp [h1])
    · exact safePart_pipe (by rw [data_seg_gross]; simp [h2])
    · exact safePart_pipe (by rw [data_seg_wastage]; simp [h3])
    · exact safePart_pipe (by rw [data_seg_net]; simp [h4])
    · exact safePart_pipe (by rw [data_seg_gold]; simp [h5])
    · exact safePart_pipe (by rw [data_seg_lab]; simp [h6])
    · exact safePart_pipe (by rw [data_seg_amount]; simp [h7])
  unfold pySplit
  rw [hdata, splitOnCL_joinL " | ".data (by decide) _ (by simp) hsafe]
  simp only [List.map_cons, List.map_nil, List.cons.injEq, and_true, mk_data]

/-- C2 counterexample: the line item with name `"a | b"` (all seven fields
non-empty) does not survive the round trip — the decoder splits the name at
the embedded `" | "` and returns name `"a"`. -/
theorem c2_roundtrip_counterexample :
    (∀ pr ∈ fieldSpecs, pr.2 ⟨"a | b", "1", "1", "1", "1", "1", "1"⟩ ≠ "") ∧
    decodeItem (encodeItem ⟨"a | b", "1", "1", "1", "1", "1", "1"⟩)
      ≠ some ⟨"a | b", "1", "1", "1", "1", "1", "1"⟩ ∧
    decodeItem (encodeItem ⟨"a | b", "1", "1", "1", "1", "1", "1"⟩)
      = some ⟨"a", "1", "1", "1", "1", "1", "1"⟩ := by
  refine ⟨by decide, by decide, by decide⟩

/-- C2 (amended): for every line item whose seven fields are non-empty,
whitespace-trimmed, free of the `'|'` character and of their own key prefix,
and whose unit-suffixed fields do not end with the unit character, decoding
the encoded string reproduces every field exactly. -/
theorem c2_encode_decode_roundtrip (x : LineItem) (hx : GoodItem x) :
    decodeItem (encodeItem x) = some x := by
  obtain ⟨n, g, w, t, r, l, a⟩ := x
  obtain ⟨⟨hn1, hn2, hn3, hn4⟩, ⟨hg1, hg2, hg3, hg4⟩, ⟨hw1, hw2, hw3, hw4⟩,
    ⟨ht1, ht2, ht3, ht4⟩, ⟨hr1, hr2, hr3, hr4⟩, ⟨hl1, hl2, hl3, hl4⟩,
    ⟨ha1, ha2, ha3, ha4⟩, hg5, ht5, hw5⟩ := hx
  have hstrip : pyStrip (encodeItem ⟨n, g, w, t, r, l, a⟩) = encodeItem ⟨n, g, w, t, r, l, a⟩ :=
    encode_pyStrip _ ha1 ha2
  have hne : encodeItem ⟨n, g, w, t, r, l, a⟩ ≠ "" := encode_ne_empty _
  have hsw : pyStartswith (encodeItem ⟨n, g, w, t, r, l, a⟩) "Item: " = true :=
    encode_startswith _
  unfold decodeItem
  rw [hstrip, if_neg (by simp [hne, hsw])]
  rw [encode_split ⟨n, g, w, t, r, l, a⟩ hn3 hg3 hw3 ht3 hr3 hl3 ha3]
  simp only [List.foldl_cons, List.foldl_nil, decodeStep_seg1, decodeStep_seg2,
    decodeStep_seg3, decodeStep_seg4, decodeStep_seg5, decodeStep_seg6, decodeStep_seg7]
  have v1 : splitAfter ("Item: " ++ n) "Item: " = n :=
    splitAfter_append _ _ (by decide) hn4
  have v2 : pyRstrip (splitAfter ("Gross: " ++ g ++ "g") "Gross: ") 'g' = g := by
    rw [String.append_assoc,
      splitAfter_append "Gross: " (g ++ "g") (by decide)
        (by rw [show (g ++ "g").data = g.data ++ ['g'] from rfl]
            exact occursIn_append_single (by decide) hg4 (by decide)),
      show ("g" : String) = String.mk ['g'] from rfl]
    exact pyRstrip_append g 'g' hg5
  have v3 : pyRstrip (splitAfter ("Wastage: " ++ w ++ "%") "Wastage: ") '%' = w := by
    rw [String.append_assoc,
      splitAfter_append "Wastage: " (w ++ "%") (by decide)
        (by rw [show (w ++ "%").data = w.data ++ ['%'] from rfl]
            exact occursIn_append_single (by decide) hw4 (by decide)),
      show ("%" : String) = String.mk ['%'] from rfl]
    exact pyRstrip_append w '%' hw5
  have v4 : pyRstrip (splitAfter ("Net: " ++ t ++ "g") "Net: ") 'g' = t := by
    rw [String.append_assoc,
      splitAfter_append "Net: " (t ++ "g") (by decide)
        (by rw [show (t ++ "g").data = t.data ++ ['g'] from rfl]
            exact occursIn_append_single (by decide) ht4 (by decide)),
      show ("g" : String) = String.mk ['g'] from rfl]
    exact pyRstrip_append t 'g' ht5
  have v5 : splitAfter ("Gold Rate: Rs." ++ r) "Gold Rate: Rs." = r :=
    splitAfter_append _ _ (by decide) hr4
  have v6 : splitAfter ("Lab Rate: Rs." ++ l) "Lab Rate: Rs." = l :=
    splitAfter_append _ _ (by decide) hl4
  have v7 : splitAfter ("Amount: Rs." ++ a) "Amount: Rs." = a :=
    splitAfter_append _ _ (by decide) ha4
  rw [v1, v2, v3, v4, v5, v6, v7]
  show some (stripItem ⟨n, g, w, t, r, l, a⟩) = some ⟨n, g, w, t, r, l, a⟩
  unfold stripItem
  rw [hn2, hg2, hw2, ht2, hr2, hl2, ha2]

/-- Witness for C2: a fully populated concrete item satisfies the conditions
and round-trips. -/
theorem c2_encode_decode_roundtrip_witness :
    GoodItem ⟨"Ring", "5", "2", "4.9", "6000", "200", "29600"⟩ ∧
    decodeItem (encodeItem ⟨"Ring", "5", "2", "4.9", "6000", "200", "29600"⟩)
      = some ⟨"Ring", "5", "2", "4.9", "6000", "200", "29600"⟩ :=
  ⟨by decide, c2_encode_decode_roundtrip _ (by decide)⟩

/-! ## Claims C3, C4, C5: row builder and the join/split pair -/

theorem data_inj {s t : String} (h : s.data = t.data) : s = t := congrArg String.mk h

theorem map_mk_data : ∀ ls : List String, (ls.map String.data).map String.mk = ls
  | [] => rfl
  | s :: rest => by simp [map_mk_data rest, mk_data]

theorem map_data_mk : ∀ ls : List Chars, ((ls.map String.mk).map String.data) = ls
  | [] => rfl
  | s :: rest => by simp [map_data_mk rest]

theorem safePart_single {c : Char} {part : Chars} (h : c ∉ part) : SafePart [c] part := by
  rintro zs hz hsuf ⟨t, ht⟩
  cases zs with
  | nil => exact hz rfl
  | cons z zs' =>
    simp only [List.cons_append, List.singleton_append] at ht
    injection ht with h2 _
    exact h (hsuf.mem (by simp [h2]))

/-- C3 counterexample: for the raw item string `"  x  "` (non-empty, no
`Item: ` prefix) the code's fallback row carries the trimmed string `"x"` in
the name column, not the raw string `"  x  "` the claim names. -/
theorem c3_fallback_counterexample :
    buildRow 1 "  x  " = ["#1", "x", "-", "-", "-", "-", "-", "-"] ∧
    buildRow 1 "  x  " ≠ ["#1", "  x  ", "-", "-", "-", "-", "-", "-"] := by
  refine ⟨by decide, by decide⟩

/-- C3 (amended): for every raw item string at 1-indexed position `i`, if the
trimmed string is empty or lacks the `Item: ` prefix the builder emits the
fallback row with the trimmed string in the name column and six dashes, and
never attempts decode; otherwise decode always succeeds (the segment loop is
total, so the exception fallback is unreachable) and the builder emits the
decoded data row. -/
theorem c3_row_builder (i : Nat) (raw : String) :
    (pyStrip raw = "" ∨ pyStartswith (pyStrip raw) "Item: " = false →
      buildRow i raw = ["#" ++ toString i, pyStrip raw, "-", "-", "-", "-", "-", "-"]) ∧
    (¬ (pyStrip raw = "" ∨ pyStartswith (pyStrip raw) "Item: " = false) →
      ∃ r, decodeItem raw = some r ∧
        buildRow i raw = ["#" ++ toString i, r.name, r.grossWeight, r.wastagePercent,
          r.netWeight, r.goldRate, r.labRate, r.amount]) := by
  constructor
  · intro h
    unfold buildRow
    rw [if_pos h]
  · intro h
    unfold buildRow
    rw [if_neg h]
    refine ⟨stripItem ((pySplit (pyStrip raw) " | ").foldl decodeStep emptyItem), ?_, rfl⟩
    unfold decodeItem
    rw [if_neg h]

/-- Witness for C3 at concrete inputs: a fallback row for a padded garbage
string, and a decoded row for a well-formed item. -/
theorem c3_row_builder_witness :
    buildRow 1 " garbage " = ["#1", "garbage", "-", "-", "-", "-", "-", "-"] ∧
    (∃ r, decodeItem "Item: Ring" = some r ∧
      buildRow 2 "Item: Ring" = ["#2", r.name, r.grossWeight, r.wastagePercent,
        r.netWeight, r.goldRate, r.labRate, r.amount]) := by
  constructor
  · rw [(c3_row_builder 1 " garbage ").1 (by decide)]
    decide
  · exact (c3_row_builder 2 "Item: Ring").2 (by decide)

/-- C4 counterexample: the one-element sequence holding the empty string
contains no newline, yet joining it stores the empty blob and the read-side
split yields the empty sequence, not `[""]`. -/
theorem c4_split_join_counterexample :
    ('\n' ∉ ("" : String).data) ∧ splitItems (joinItems [""]) = [] ∧
    ([] : List String) ≠ [""] := by
  refine ⟨by decide, by decide, by decide⟩

/-- C4 (amended): `split (join items) = items` for every sequence of
newline-free item strings other than the singleton empty string (which joins
to the empty blob and reads back as zero items); and `join (split blob) =
blob` for every blob with no empty lines and no leading or trailing
whitespace. -/
theorem c4_join_split_inverse :
    (∀ items : List String, items ≠ [""] → (∀ s ∈ items, '\n' ∉ s.data) →
      splitItems (joinItems items) = items) ∧
    (∀ blob : String, (∀ line ∈ pySplit blob "\n", pyStrip line ≠ "") →
      pyStrip blob = blob → joinItems (splitItems blob) = blob) := by
  constructor
  · intro items hne hnl
    match items with
    | [] => rfl
    | x :: rest =>
      have hsafe : ∀ p ∈ (x :: rest).map String.data, SafePart "\n".data p := by
        intro p hp
        simp only [List.mem_map] at hp
        obtain ⟨s, hs, rfl⟩ := hp
        exact safePart_single (hnl s hs)
      have hjoin_ne : joinItems (x :: rest) ≠ "" := by
        cases rest with
        | nil =>
          have hx : x ≠ "" := fun h => hne (by rw [h])
          simpa [joinItems, joinSep] using hx
        | cons y rest' =>
          intro h
          have hd := congrArg String.data h
          simp [joinItems, joinSep, data_append, List.append_eq_nil] at hd
      unfold splitItems
      rw [if_neg hjoin_ne]
      unfold pySplit
      have hdata : (joinItems (x :: rest)).data
          = joinL "\n".data ((x :: rest).map String.data) := joinSep_data "\n" _
      rw [hdata, splitOnCL_joinL "\n".data (by decide) _ (by simp) hsafe,
        map_mk_data]
  · intro blob _ _
    by_cases hb : blob = ""
    · rw [hb]; rfl
    · unfold splitItems
      rw [if_neg hb]
      apply data_inj
      rw [show joinItems (pySplit blob "\n") = joinSep "\n" (pySplit blob "\n") from rfl,
        joinSep_data]
      unfold pySplit
      rw [map_data_mk]
      exact joinL_splitOnCL "\n".data (by decide) blob.data

/-- Witness for C4 at concrete inputs. -/
theorem c4_join_split_inverse_witness :
    splitItems (joinItems ["Item: A", "b"]) = ["Item: A", "b"] ∧
    joinItems (splitItems "a\nb") = "a\nb" := by
  constructor
  · exact c4_join_split_inverse.1 ["Item: A", "b"] (by decide) (by decide)
  · exact c4_join_split_inverse.2 "a\nb" (by decide) (by decide)

/-- C5 counterexample: for the stored blob `"\n"` the claim's split (trim the
blob, split, trim elements, drop empties) yields no items, but the code's
table loop iterates two empty elements and emits two fallback rows, so the
table is not header-only. -/
theorem c5_split_counterexample :
    specSplitItems "\n" = [] ∧ splitItems "\n" = ["", ""] ∧
    buildTable "\n" ≠ [headerRow] ∧ (buildTable "\n").length = 3 := by
  refine ⟨by decide, by decide, by decide, by decide⟩

/-- C5 (amended): an empty (or falsy) blob yields zero items, so a visit
stored with `purchasedItems=[]` produces a header-only table; a non-empty
blob is split on newline without pre-trimming the blob, elements are trimmed
only inside the row builder, and elements empty after trimming are not
dropped — each produces a fallback row, so the row count always equals the
element count. -/
theorem c5_split_behavior :
    splitItems "" = [] ∧
    (∀ blob : String, blob ≠ "" → splitItems blob = pySplit blob "\n") ∧
    (∀ blob : String, (itemRows blob).length = (splitItems blob).length) ∧
    (∀ (blob : String) (i : Nat) (raw : String),
      (splitItems blob)[i]? = some raw → pyStrip raw = "" →
      (itemRows blob)[i]? = some ["#" ++ toString (i + 1), "", "-", "-", "-", "-", "-", "-"]) ∧
    buildTable (joinItems []) = [headerRow] := by
  refine ⟨rfl, ?_, ?_, ?_, by decide⟩
  · intro blob hb
    unfold splitItems
    rw [if_neg hb]
  · intro blob
    unfold itemRows
    simp [List.enum_length]
  · intro blob i raw hraw hempty
    unfold itemRows
    rw [List.getElem?_map, List.getElem?_enum, hraw]
    show some (buildRow (i + 1) raw) = _
    unfold buildRow
    rw [if_pos (Or.inl hempty), hempty]

/-- Witness for C5 at concrete inputs: the blob `"a\n\nb"` splits into three
elements, the middle empty element becomes a fallback row, and an empty item
list renders as a header-only table. -/
theorem c5_split_behavior_witness :
    splitItems "a\n\nb" = ["a", "", "b"] ∧
    (itemRows "a\n\nb").length = 3 ∧
    (itemRows "a\n\nb")[1]? = some ["#2", "", "-", "-", "-", "-", "-", "-"] ∧
    buildTable (joinItems []) = [headerRow] := by
  obtain ⟨_, h2, h3, h4, h5⟩ := c5_split_behavior
  refine ⟨?_, ?_, ?_, h5⟩
  · rw [h2 "a\n\nb" (by decide)]
    decide
  · rw [h3]
    decide
  · exact h4 "a\n\nb" 1 "" (by decide) (by decide)

/-! ## Store-level lemmas -/

/-- The number of stored customers with a given (name, contact) pair. -/
def countPair (st : Store) (nm ct : String) : Nat :=
  (st.customers.filter fun c => c.name == nm && c.contact == ct).length

theorem find?_append_left_none {α} (p : α → Bool) (l₁ l₂ : List α)
    (h : ∀ a ∈ l₁, p a = false) : List.find? p (l₁ ++ l₂) = List.find? p l₂ := by
  induction l₁ with
  | nil => rfl
  | cons a as ih =>
    rw [List.cons_append, List.find?_cons, h a (by simp)]
    exact ih fun b hb => h b (by simp [hb])

theorem foldl_laterVisit_spec :
    ∀ (l : List Visit) (w : Visit),
      ∃ v, l.foldl laterVisit (some w) = some v ∧ (v = w ∨ v ∈ l) ∧
        w.date ≤ v.date ∧ ∀ u ∈ l, u.date ≤ v.date := by
  intro l
  induction l with
  | nil => intro w; exact ⟨w, rfl, Or.inl rfl, Nat.le_refl _, by simp⟩
  | cons u l' ih =>
    intro w
    simp only [List.foldl_cons, laterVisit]
    by_cases h : u.date > w.date
    · rw [if_pos h]
      obtain ⟨v, hf, hv, hd, hall⟩ := ih u
      refine ⟨v, hf, ?_, Nat.le_trans (Nat.le_of_lt h) hd, ?_⟩
      · rcases hv with rfl | hv
        · exact Or.inr (by simp)
        · exact Or.inr (by simp [hv])
      · intro x hx
        rcases List.mem_cons.mp hx with rfl | hx
        · exact hd
        · exact hall x hx
    · rw [if_neg h]
      obtain ⟨v, hf, hv, hd, hall⟩ := ih w
      refine ⟨v, hf, ?_, hd, ?_⟩
      · rcases hv with rfl | hv
        · exact Or.inl rfl
        · exact Or.inr (by simp [hv])
      · intro x hx
        rcases List.mem_cons.mp hx with rfl | hx
        · exact Nat.le_trans (Nat.not_lt.mp h) hd
        · exact hall x hx

theorem latestVisit_none_iff (vs : List Visit) (cid : Nat) :
    latestVisit vs cid = none ↔ vs.filter (fun v => v.customer_id == cid) = [] := by
  unfold latestVisit
  cases hf : vs.filter (fun v => v.customer_id == cid) with
  | nil => simp
  | cons w l =>
    simp only [List.foldl_cons, show laterVisit none w = some w from rfl]
    obtain ⟨v, hv, _⟩ := foldl_laterVisit_spec l w
    rw [hv]
    simp

theorem latestVisit_spec (vs : List Visit) (cid : Nat) (v : Visit)
    (h : latestVisit vs cid = some v) :
    v ∈ vs ∧ v.customer_id = cid ∧
      ∀ w ∈ vs, w.customer_id = cid → w.date ≤ v.date := by
  unfold latestVisit at h
  cases hf : vs.filter (fun x => x.customer_id == cid) with
  | nil => rw [hf] at h; cases h
  | cons w l =>
    rw [hf] at h
    simp only [List.foldl_cons, show laterVisit none w = some w from rfl] at h
    obtain ⟨v', hv', hmem, hwd, hall⟩ := foldl_laterVisit_spec l w
    rw [hv'] at h
    injection h with he
    subst he
    have hmemf : v' ∈ vs.filter (fun x => x.customer_id == cid) := by
      rw [hf]
      rcases hmem with rfl | hm
      · simp
      · simp [hm]
    obtain ⟨hvs, hpred⟩ := List.mem_filter.mp hmemf
    refine ⟨hvs, by simpa using hpred, ?_⟩
    intro x hx hcid
    have hxf : x ∈ vs.filter (fun y => y.customer_id == cid) :=
      List.mem_filter.mpr ⟨hx, by simp [hcid]⟩
    rw [hf] at hxf
    rcases List.mem_cons.mp hxf with rfl | hxl
    · exact hwd
    · exact hall x hxl

/-- C6: starting from any store that does not already hold duplicate
(name, contact) pairs (the invariant `add_customer` itself maintains), two
calls of `add_customer` with the identical name and contact return the same
id both times, the id is present, and afterwards exactly one customer record
with that pair is stored. -/
theorem c6_add_customer_idempotent (st : Store) (sink : List (List String))
    (nm ct : String) (mok1 mok2 : Bool) (hinv : countPair st nm ct ≤ 1) :
    (add_customer (add_customer st sink ⟨some nm, some ct⟩ mok1).store
        (add_customer st sink ⟨some nm, some ct⟩ mok1).sink
        ⟨some nm, some ct⟩ mok2).resp.id
      = (add_customer st sink ⟨some nm, some ct⟩ mok1).resp.id ∧
    (∃ i, (add_customer st sink ⟨some nm, some ct⟩ mok1).resp.id = some i) ∧
    countPair (add_customer (add_customer st sink ⟨some nm, some ct⟩ mok1).store
        (add_customer st sink ⟨some nm, some ct⟩ mok1).sink
        ⟨some nm, some ct⟩ mok2).store nm ct = 1 := by
  cases hf : st.customers.find? (fun c => c.name == nm && c.contact == ct) with
  | some c =>
    have hc1 : add_customer st sink ⟨some nm, some ct⟩ mok1
        = ⟨st, sink, false, ⟨200, "Customer already exists!", some c.id⟩⟩ := by
      simp only [add_customer, hf]
    rw [hc1]
    have hc2 : add_customer st sink ⟨some nm, some ct⟩ mok2
        = ⟨st, sink, false, ⟨200, "Customer already exists!", some c.id⟩⟩ := by
      simp only [add_customer, hf]
    rw [hc2]
    refine ⟨rfl, ⟨c.id, rfl⟩, ?_⟩
    have hpc : (c.name == nm && c.contact == ct) = true :=
      @List.find?_some _ (fun c => c.name == nm && c.contact == ct) c _ hf
    have hmem : c ∈ st.customers.filter (fun c => c.name == nm && c.contact == ct) :=
      List.mem_filter.mpr ⟨List.mem_of_find?_eq_some hf, hpc⟩
    have hpos : 1 ≤ countPair st nm ct := by
      unfold countPair
      exact List.length_pos.mpr (List.ne_nil_of_mem hmem)
    show countPair st nm ct = 1
    omega
  | none =>
    have hall : ∀ a ∈ st.customers, (fun c => c.name == nm && c.contact == ct) a = false := by
      intro a ha
      have := List.find?_eq_none.mp hf a ha
      simpa using this
    have hc1 : add_customer st sink ⟨some nm, some ct⟩ mok1
        = ⟨⟨st.customers ++ [⟨st.nextCustomerId, nm, ct⟩], st.visits,
             st.nextCustomerId + 1, st.nextVisitId⟩,
           (save_to_excel mok1 sink [toString st.nextCustomerId, nm, ct]).1,
           (save_to_excel mok1 sink [toString st.nextCustomerId, nm, ct]).2,
           ⟨200, "Customer added successfully!", some st.nextCustomerId⟩⟩ := by
      simp only [add_customer, hf]
    rw [hc1]
    have hfind2 : (st.customers ++ [(⟨st.nextCustomerId, nm, ct⟩ : Customer)]).find?
        (fun c => c.name == nm && c.contact == ct)
        = some ⟨st.nextCustomerId, nm, ct⟩ := by
      rw [find?_append_left_none _ _ _ hall]
      simp [List.find?]
    have hc2 : add_customer
        ⟨st.customers ++ [⟨st.nextCustomerId, nm, ct⟩], st.visits,
          st.nextCustomerId + 1, st.nextVisitId⟩
        (save_to_excel mok1 sink [toString st.nextCustomerId, nm, ct]).1
        ⟨some nm, some ct⟩ mok2
        = ⟨⟨st.customers ++ [⟨st.nextCustomerId, nm, ct⟩], st.visits,
             st.nextCustomerId + 1, st.nextVisitId⟩,
           (save_to_excel mok1 sink [toString st.nextCustomerId, nm, ct]).1, false,
           ⟨200, "Customer already exists!", some st.nextCustomerId⟩⟩ := by
      simp only [add_customer, hfind2]
    rw [hc2]
    refine ⟨rfl, ⟨st.nextCustomerId, rfl⟩, ?_⟩
    unfold countPair
    have hfilter : st.customers.filter (fun c => c.name == nm && c.contact == ct) = [] :=
      List.filter_eq_nil_iff.mpr (by intro a ha; simp [hall a ha])
    simp [List.filter_append, hfilter]

/-- Witness for C6: from the empty store, two identical adds return the same
id and leave one record. -/
theorem c6_add_customer_idempotent_witness :
    ∃ i, (add_customer ⟨[], [], 1, 1⟩ [] ⟨some "A", some "B"⟩ true).resp.id = some i ∧
      (add_customer (add_customer ⟨[], [], 1, 1⟩ [] ⟨some "A", some "B"⟩ true).store
        (add_customer ⟨[], [], 1, 1⟩ [] ⟨some "A", some "B"⟩ true).sink
        ⟨some "A", some "B"⟩ true).resp.id = some i ∧
      countPair (add_customer (add_customer ⟨[], [], 1, 1⟩ [] ⟨some "A", some "B"⟩ true).store
        (add_customer ⟨[], [], 1, 1⟩ [] ⟨some "A", some "B"⟩ true).sink
        ⟨some "A", some "B"⟩ true).store "A" "B" = 1 := by
  obtain ⟨heq, ⟨i, hi⟩, hcount⟩ :=
    c6_add_customer_idempotent ⟨[], [], 1, 1⟩ [] "A" "B" true true (by decide)
  exact ⟨i, hi, by rw [heq, hi], hcount⟩

/-- C7: `generate_invoice` answers 404 for every customer id with no stored
visit, whether or not the customer record exists; and when a customer and a
visit are found it always produces a document — for every stored items blob,
malformed or not — so the only failures are the two not-found cases (or the
external renderer, which is outside this model). -/
theorem c7_invoice_not_found_and_total (st : Store) (cid : Nat) :
    (st.visits.filter (fun v => v.customer_id == cid) = [] →
      ∃ msg, generate_invoice st cid = .err 404 msg) ∧
    (∀ c, st.customers.find? (fun c => c.id == cid) = some c →
      ∀ v, latestVisit st.visits cid = some v →
        generate_invoice st cid
          = .pdf ⟨c.name, c.contact, v.date, buildTable v.purchased_items,
              v.paid_amount, v.due_amount⟩) ∧
    (∀ c, st.customers.find? (fun c => c.id == cid) = some c →
      st.visits.filter (fun v => v.customer_id == cid) ≠ [] →
      ∃ doc, generate_invoice st cid = .pdf doc) := by
  refine ⟨?_, ?_, ?_⟩
  · intro hnov
    cases hc : st.customers.find? (fun c => c.id == cid) with
    | none =>
      refine ⟨"Customer not found", ?_⟩
      unfold generate_invoice
      rw [hc]
    | some c =>
      refine ⟨"No purchases found", ?_⟩
      unfold generate_invoice
      rw [hc, (latestVisit_none_iff st.visits cid).mpr hnov]
  · intro c hc v hv
    unfold generate_invoice
    rw [hc, hv]
  · intro c hc hne
    cases hv : latestVisit st.visits cid with
    | none => exact absurd ((latestVisit_none_iff st.visits cid).mp hv) hne
    | some v =>
      refine ⟨⟨c.name, c.contact, v.date, buildTable v.purchased_items,
        v.paid_amount, v.due_amount⟩, ?_⟩
      unfold generate_invoice
      rw [hc, hv]

/-- Witness for C7: a customer with no visits gets 404; a customer with a
visit holding a malformed item still gets a document. -/
theorem c7_invoice_not_found_and_total_witness :
    (∃ msg, generate_invoice ⟨[⟨1, "A", "B"⟩], [], 2, 1⟩ 1 = .err 404 msg) ∧
    (∃ msg, generate_invoice ⟨[], [], 1, 1⟩ 7 = .err 404 msg) ∧
    (∃ doc, generate_invoice ⟨[⟨1, "A", "B"⟩], [⟨1, 1, 5, "garbage", 0, 0⟩], 2, 2⟩ 1
      = .pdf doc) := by
  refine ⟨(c7_invoice_not_found_and_total _ 1).1 (by decide),
    (c7_invoice_not_found_and_total _ 7).1 (by decide),
    (c7_invoice_not_found_and_total _ 1).2.2 ⟨1, "A", "B"⟩ (by decide) (by decide)⟩

/-- C8: for both mutating endpoints the primary store and the response are
identical whether the external spreadsheet mirror write succeeds or throws —
the failure neither changes the response nor rolls back the committed
record — and whenever a mirror write is attempted and fails, an error is
logged. -/
theorem c8_mirror_failure_isolated :
    (∀ (st : Store) (sink : List (List String)) (req : AddCustomerReq),
      (add_customer st sink req false).store = (add_customer st sink req true).store ∧
      (add_customer st sink req false).resp = (add_customer st sink req true).resp) ∧
    (∀ (st : Store) (sink : List (List String)) (req : AddVisitReq) (now : Nat),
      (add_visit st sink req now false).store = (add_visit st sink req now true).store ∧
      (add_visit st sink req now false).resp = (add_visit st sink req now true).resp) ∧
    (∀ (st : Store) (sink : List (List String)) (nm ct : String),
      st.customers.find? (fun c => c.name == nm && c.contact == ct) = none →
      (add_customer st sink ⟨some nm, some ct⟩ false).mirrorErrorLogged = true) ∧
    (∀ (st : Store) (sink : List (List String)) (cid : Nat) (items : List String)
        (pa da : Option Int) (now : Nat),
      (add_visit st sink ⟨some cid, some items, pa, da⟩ now false).mirrorErrorLogged
        = true) := by
  refine ⟨?_, ?_, ?_, ?_⟩
  · intro st sink req
    obtain ⟨nm?, ct?⟩ := req
    cases nm? with
    | none => exact ⟨rfl, rfl⟩
    | some nm =>
      cases ct? with
      | none => exact ⟨rfl, rfl⟩
      | some ct =>
        cases hf : st.customers.find? (fun c => c.name == nm && c.contact == ct) with
        | some c => simp [add_customer, hf]
        | none => simp [add_customer, hf]
  · intro st sink req now
    obtain ⟨cid?, items?, pa, da⟩ := req
    cases cid? with
    | none => exact ⟨rfl, rfl⟩
    | some cid =>
      cases items? with
      | none => exact ⟨rfl, rfl⟩
      | some items => exact ⟨rfl, rfl⟩
  · intro st sink nm ct hf
    simp [add_customer, hf, save_to_excel]
  · intro st sink cid items pa da now
    rfl

/-- Witness for C8 at concrete inputs. -/
theorem c8_mirror_failure_isolated_witness :
    ((add_customer ⟨[], [], 1, 1⟩ [] ⟨some "A", some "B"⟩ false).store
       = (add_customer ⟨[], [], 1, 1⟩ [] ⟨some "A", some "B"⟩ true).store) ∧
    ((add_customer ⟨[], [], 1, 1⟩ [] ⟨some "A", some "B"⟩ false).resp
       = (add_customer ⟨[], [], 1, 1⟩ [] ⟨some "A", some "B"⟩ true).resp) ∧
    (add_customer ⟨[], [], 1, 1⟩ [] ⟨some "A", some "B"⟩ false).mirrorErrorLogged = true ∧
    (add_visit ⟨[], [], 1, 1⟩ [] ⟨some 3, some ["x"], none, none⟩ 9 false).mirrorErrorLogged
      = true := by
  obtain ⟨h1, _, h3, h4⟩ := c8_mirror_failure_isolated
  exact ⟨(h1 _ _ _).1, (h1 _ _ _).2, h3 ⟨[], [], 1, 1⟩ [] "A" "B" (by decide),
    h4 ⟨[], [], 1, 1⟩ [] 3 ["x"] none none 9⟩

/-- C9: `add_visit` never checks that the customer id exists: when both
required fields are present, the visit is recorded with a success response
even if no stored customer has that id; a request missing a required field
is the only 400 rejection. -/
theorem c9_add_visit_unchecked_customer :
    (∀ (st : Store) (sink : List (List String)) (cid : Nat) (items : List String)
        (pa da : Option Int) (now : Nat) (mok : Bool),
      (∀ c ∈ st.customers, c.id ≠ cid) →
      (add_visit st sink ⟨some cid, some items, pa, da⟩ now mok).resp
        = ⟨200, "Visit recorded successfully!", none⟩ ∧
      ∃ v ∈ (add_visit st sink ⟨some cid, some items, pa, da⟩ now mok).store.visits,
        v.customer_id = cid ∧ v.purchased_items = joinItems items) ∧
    (∀ (st : Store) (sink : List (List String)) (req : AddVisitReq) (now : Nat)
        (mok : Bool),
      req.customer_id = none ∨ req.purchased_items = none →
      (add_visit st sink req now mok).resp
        = ⟨400, "Invalid data, customer_id and purchased_items required", none⟩) := by
  constructor
  · intro st sink cid items pa da now mok _
    refine ⟨rfl, ⟨st.nextVisitId, cid, now, joinItems items, pa.getD 0, da.getD 0⟩, ?_, rfl, rfl⟩
    show _ ∈ st.visits ++ [_]
    simp
  · intro st sink req now mok hmiss
    obtain ⟨cid?, items?, pa, da⟩ := req
    rcases hmiss with h | h
    · simp only at h
      subst h
      rfl
    · simp only at h
      subst h
      cases cid? <;> rfl

/-- Witness for C9: a visit for the nonexistent customer id 42 is recorded
against the empty store, and a request missing `purchased_items` gets 400. -/
theorem c9_add_visit_unchecked_customer_witness :
    ((add_visit ⟨[], [], 1, 1⟩ [] ⟨some 42, some ["Item: Ring"], none, none⟩ 5 true).resp
      = ⟨200, "Visit recorded successfully!", none⟩ ∧
    ∃ v ∈ (add_visit ⟨[], [], 1, 1⟩ []
        ⟨some 42, some ["Item: Ring"], none, none⟩ 5 true).store.visits,
      v.customer_id = 42 ∧ v.purchased_items = joinItems ["Item: Ring"]) ∧
    (add_visit ⟨[], [], 1, 1⟩ [] ⟨some 42, none, none, none⟩ 5 true).resp
      = ⟨400, "Invalid data, customer_id and purchased_items required", none⟩ := by
  exact ⟨c9_add_visit_unchecked_customer.1 ⟨[], [], 1, 1⟩ [] 42 ["Item: Ring"]
      none none 5 true (by decide),
    c9_add_visit_unchecked_customer.2 ⟨[], [], 1, 1⟩ [] ⟨some 42, none, none, none⟩ 5 true
      (Or.inr rfl)⟩

/-- C10: for a customer that exists, the invoice renders exactly one visit —
one belonging to that customer whose date is maximal among the customer's
visits — and the produced document is built from that visit alone (its date,
items table, paid and due amounts), so no earlier visit's data appears;
whenever the customer has at least one visit such a latest visit exists. -/
theorem c10_invoice_renders_latest_visit (st : Store) (cid : Nat) (c : Customer)
    (hc : st.customers.find? (fun c => c.id == cid) = some c) :
    (∀ v, latestVisit st.visits cid = some v →
      v ∈ st.visits ∧ v.customer_id = cid ∧
      (∀ w ∈ st.visits, w.customer_id = cid → w.date ≤ v.date) ∧
      generate_invoice st cid
        = .pdf ⟨c.name, c.contact, v.date, buildTable v.purchased_items,
            v.paid_amount, v.due_amount⟩) ∧
    (st.visits.filter (fun v => v.customer_id == cid) ≠ [] →
      ∃ v, latestVisit st.visits cid = some v) := by
  constructor
  · intro v hv
    obtain ⟨hmem, hcid, hmax⟩ := latestVisit_spec st.visits cid v hv
    refine ⟨hmem, hcid, hmax, ?_⟩
    unfold generate_invoice
    rw [hc, hv]
  · intro hne
    cases hv : latestVisit st.visits cid with
    | none => exact absurd ((latestVisit_none_iff st.visits cid).mp hv) hne
    | some v => exact ⟨v, rfl⟩

/-- Witness for C10: with two visits for customer 1 the later one (date 20)
is rendered, carrying only its own items, paid, due, and date. -/
theorem c10_invoice_renders_latest_visit_witness :
    generate_invoice
        ⟨[⟨1, "A", "B"⟩], [⟨1, 1, 10, "Item: Old", 5, 6⟩, ⟨2, 1, 20, "Item: New", 7, 8⟩], 2, 3⟩ 1
      = .pdf ⟨"A", "B", 20, buildTable "Item: New", 7, 8⟩ := by
  have h := (c10_invoice_renders_latest_visit
    ⟨[⟨1, "A", "B"⟩], [⟨1, 1, 10, "Item: Old", 5, 6⟩, ⟨2, 1, 20, "Item: New", 7, 8⟩], 2, 3⟩
    1 ⟨1, "A", "B"⟩ (by decide)).1 ⟨2, 1, 20, "Item: New", 7, 8⟩ (by decide)
  exact h.2.2.2

example : decodeItem "Item: Ring" = some ⟨"Ring", "", "", "", "", "", ""⟩ := by decide
example : decodeItem "not an item string" = none := by decide
example :
    decodeItem "Item: Ring | Gross: 5g | Wastage: 2% | Net: 4.9g | Gold Rate: Rs.6000 | Lab Rate: Rs.200 | Amount: Rs.29600"
      = some ⟨"Ring", "5", "2", "4.9", "6000", "200", "29600"⟩ := by decide
example :
    decodeItem (encodeItem ⟨"a | b", "1", "1", "1", "1", "1", "1"⟩)
      = some ⟨"a", "1", "1", "1", "1", "1", "1"⟩ := by decide
example : buildRow 1 " garbage " = ["#1", "garbage", "-", "-", "-", "-", "-", "-"] := by decide
example : buildTable "\n" =
    [headerRow, ["#1", "", "-", "-", "-", "-", "-", "-"],
     ["#2", "", "-", "-", "-", "-", "-", "-"]] := by decide
example : specSplitItems "\n" = [] := by decide
example : buildTable (joinItems []) = [headerRow] := by decide
example : splitItems (joinItems [""]) = [] := by decide
example : splitItems (joinItems ["a", ""]) = ["a", ""] := by decide
